import Mathlib

/-!
Shallow embedding of `metrics.py` from the MatchSum repository and proofs
about it.  Real-valued tensors are modelled over `ℚ`; a score matrix of
shape `(b, n)` is a function `ℕ → ℕ → ℚ` read only on row indices `< b`
and column indices `< n`.  External collaborators (the `rouge` Python
package and the ROUGE-1.5.5 perl scorer) are abstracted as parameters;
everything else is translated from the source.
-/

namespace MatchSum

/-! ## Module-load behaviour (lines 22-26 of metrics.py)

The module body runs `_ROUGE_PATH = os.environ["ROUGE_PATH"]` inside a
`try` whose only handler is `except KeyError`.  The import list of the
file (lines 1-19) binds the names below; `from os.path import join`
binds only `join`, not `os`. -/

/-- Names bound at module level before line 22 executes, one per import
of lines 1-19 of metrics.py. -/
def moduleBoundNames : List String :=
  ["np", "json", "join", "sys", "torch", "logging", "tempfile", "sp",
   "timedelta", "time", "combinations", "Rouge155", "log", "Rouge",
   "LossBase", "MetricBase"]

/-- Outcome of importing the module: it finishes normally with the scorer
path, or calls `sys.exit(1)` after printing a message, or an exception
escapes uncaught. -/
inductive LoadResult where
  | ok (rougePath : String)
  | exited (code : ℕ) (msg : String)
  | uncaught (excName : String)
deriving DecidableEq

/-- Evaluation of lines 22-26: evaluating `os.environ` first resolves the
name `os`; an unbound name raises `NameError`, which the
`except KeyError` handler does not catch.  Were `os` bound, a missing
key would raise `KeyError`, caught by the handler which prints and calls
`sys.exit(1)`. -/
def loadModule (env : String → Option String) : LoadResult :=
  if "os" ∈ moduleBoundNames then
    match env "ROUGE_PATH" with
    | some p => .ok p
    | none => .exited 1 "Please set the environment variable ROUGE_PATH"
  else
    .uncaught "NameError"

/-! ## MarginRankingLoss (lines 29-65)

`torch.nn.MarginRankingLoss(m)` applied to equal-shaped inputs `x1, x2`
and target `y = 1` everywhere returns, with the default `"mean"`
reduction, the mean over all elements of `max(0, -(x1 - x2) + m)`.
`marginTerm m b w pos neg` is that loss for inputs of shape `(b, w)`
flattened (flattening does not change the mean).  torch's mean of an
empty tensor is NaN; the theorems below assume nonempty shapes. -/

/-- Mean over a `b × w` grid of the elementwise hinge
`max 0 (neg - pos + m)`: `torch.nn.MarginRankingLoss(m)` with all-ones
target and mean reduction. -/
def marginTerm (m : ℚ) (b w : ℕ) (pos neg : ℕ → ℕ → ℚ) : ℚ :=
  (∑ r ∈ Finset.range b, ∑ j ∈ Finset.range w, max 0 (neg r j - pos r j + m))
    / (b * w)

/-- `MarginRankingLoss.get_loss` (lines 37-65): a seeding margin-0 term of
`score` against itself; for each `i` in `1..n-1` a term with positives
`score[:, :-i]` (element `(r, j) ↦ score r j`, `j < n - i`) and negatives
`score[:, i:]` (element `(r, j) ↦ score r (j + i)`) at margin
`margin * i`; and a margin-0 term of the broadcast `summary_score`
against `score`. -/
def get_loss (margin : ℚ) (b n : ℕ) (score : ℕ → ℕ → ℚ)
    (summary_score : ℕ → ℚ) : ℚ :=
  marginTerm 0 b n score score
    + (∑ i ∈ Finset.Ico 1 n,
        marginTerm (margin * i) b (n - i) score (fun r j => score r (j + i)))
    + marginTerm 0 b n (fun r _ => summary_score r) score

/-- The ordering constraints of the spec: every earlier-ranked candidate
exceeds each candidate `i` ranks later by at least `margin * i`, and the
gold summary score is at least every candidate score. -/
def OrderedScores (margin : ℚ) (b n : ℕ) (score : ℕ → ℕ → ℚ)
    (summary_score : ℕ → ℚ) : Prop :=
  (∀ r < b, ∀ i ∈ Finset.Ico 1 n, ∀ j < n - i,
      score r (j + i) + margin * i ≤ score r j) ∧
  (∀ r < b, ∀ c < n, score r c ≤ summary_score r)

instance (margin : ℚ) (b n : ℕ) (score : ℕ → ℕ → ℚ) (summary_score : ℕ → ℚ) :
    Decidable (OrderedScores margin b n score summary_score) := by
  unfold OrderedScores; infer_instance

/-! ## ValidMetric (lines 67-132)

One `Example` is one entry of the externally loaded `data` list.  The
`rouge` Python package behind `fast_rouge` is an external collaborator:
it is abstracted as a parameter `rougeScores : String → String → ℚ`
giving the averaged ROUGE-1/2/L f-score of a (dec, ref) pair. -/

/-- One element of the external data collection: source sentences, gold
summary sentences, and candidate index-sets into `text`. -/
structure Example where
  text : List String
  summary : List String
  indices : List (List ℕ)
deriving DecidableEq

/-- `torch.max(v, dim=0).indices` for a 1-D tensor: index of the first
maximal element (torch errors on an empty tensor; rows here are
nonempty). -/
def argmax (xs : List ℚ) : ℕ :=
  (List.range xs.length).foldl
    (fun best i => if xs.getD best 0 < xs.getD i 0 then i else best) 0

/-- Mutable state of a `ValidMetric` instance (lines 68-83); the
`self.rouge` scorer object is kept outside the state as a parameter. -/
structure VState where
  save_path : String
  data : List Example
  top1_correct : ℕ
  top6_correct : ℕ
  top10_correct : ℕ
  ROUGE : ℚ
  Error : ℕ
  cur_idx : ℕ
deriving DecidableEq

/-- `ValidMetric.__init__`: all counters, the ROUGE accumulator and the
cursor start at zero. -/
def initV (save_path : String) (data : List Example) : VState :=
  ⟨save_path, data, 0, 0, 0, 0, 0, 0⟩

/-- Python `' '.join(l)`. -/
def joinWords (l : List String) : String := String.intercalate " " l

/-- `ValidMetric.fast_rouge` (lines 86-90): 0.0 on an empty decoded or
reference string, otherwise the external scorer's averaged f-score. -/
def fast_rouge (rougeScores : String → String → ℚ) (dec ref : String) : ℚ :=
  if dec = "" ∨ ref = "" then 0 else rougeScores dec ref

/-- One iteration of the per-row loop of `ValidMetric.evaluate`
(lines 99-113).  `none` models an uncaught `IndexError` (cursor past the
end of `data`, or a sentence index past the end of `text`).  The in-place
`ext_idx.sort()` of line 106 is modelled by writing the ascending sort
of the selected index-set back into the example (Python's stable
ascending `list.sort`). -/
def processRow (rougeScores : String → String → ℚ) (st : VState)
    (row : List ℚ) : Option VState :=
  match st.data.get? st.cur_idx with
  | none => none
  | some ex =>
    let max_idx := argmax row
    if h : ex.indices.length ≤ max_idx then
      some {st with Error := st.Error + 1, cur_idx := st.cur_idx + 1}
    else
      let ext_idx := (ex.indices.get ⟨max_idx, Nat.lt_of_not_le h⟩).insertionSort (· ≤ ·)
      let ex' := {ex with indices := ex.indices.set max_idx ext_idx}
      let ref := joinWords ex.summary
      match ext_idx.mapM (fun j => ex.text.get? j) with
      | none => none
      | some decSents =>
        some {st with data := st.data.set st.cur_idx ex',
                      ROUGE := st.ROUGE + fast_rouge rougeScores (joinWords decSents) ref,
                      cur_idx := st.cur_idx + 1}

/-- Lines 93-96 of `ValidMetric.evaluate`: the top-k counters grow by the
number of rows whose arg-max satisfies the respective bound. -/
def stepTopK (st : VState) (score : List (List ℚ)) : VState :=
  {st with
    top1_correct := st.top1_correct + score.countP (fun row => decide (argmax row = 0)),
    top6_correct := st.top6_correct + score.countP (fun row => decide (argmax row ≤ 5)),
    top10_correct := st.top10_correct + score.countP (fun row => decide (argmax row ≤ 9))}

/-- `ValidMetric.evaluate` (lines 92-113): top-k counting over the whole
batch, then the per-row fast-ROUGE loop in row order. -/
def evaluateV (rougeScores : String → String → ℚ) (st : VState)
    (score : List (List ℚ)) : Option VState :=
  List.foldlM (processRow rougeScores) (stepTopK st score) score

/-- A sequence of `ValidMetric.evaluate` calls, one per batch. -/
def evalBatches (rougeScores : String → String → ℚ) (st : VState)
    (batches : List (List (List ℚ))) : Option VState :=
  List.foldlM (evaluateV rougeScores) st batches

/-- The dict returned by `ValidMetric.get_metric` (lines 120-121). -/
structure VReport where
  top1_accuracy : ℚ
  top6_accuracy : ℚ
  top10_accuracy : ℚ
  Error : ℕ
  ROUGE : ℚ
deriving DecidableEq

/-- `ValidMetric.get_metric` (lines 115-132): `none` models the
`ZeroDivisionError` raised by line 116 when the cursor is zero; the
append to `train_info.txt` is an external filesystem effect carrying the
same numbers as the returned report. -/
def getMetricV (reset : Bool) (st : VState) : Option (VReport × VState) :=
  if st.cur_idx = 0 then none
  else
    some ({top1_accuracy := (st.top1_correct : ℚ) / st.cur_idx,
           top6_accuracy := (st.top6_correct : ℚ) / st.cur_idx,
           top10_accuracy := (st.top10_correct : ℚ) / st.cur_idx,
           Error := st.Error,
           ROUGE := st.ROUGE / st.cur_idx},
          if reset then
            {st with top1_correct := 0, top6_correct := 0, top10_correct := 0,
                     ROUGE := 0, Error := 0, cur_idx := 0}
          else st)

/-! ## MatchRougeMetric (lines 134-215)

`self.start` (a wall-clock timestamp used only for the transient progress
line) is not part of the state; the external ROUGE-1.5.5 subprocess of
`eval_rouge` and its parsed scores are outside the embedding, so
`get_metric` is modelled up to the observable artifact it produces: the
per-example decoded and reference files. -/

/-- Mutable state of a `MatchRougeMetric` instance (lines 135-144). -/
structure MRState where
  data : List Example
  dec_path : String
  ref_path : String
  n_total : ℕ
  cur_idx : ℕ
  ext : List ℕ
deriving DecidableEq

/-- `MatchRougeMetric.__init__`. -/
def initM (data : List Example) (dec_path ref_path : String) (n_total : ℕ) : MRState :=
  ⟨data, dec_path, ref_path, n_total, 0, []⟩

/-- `MatchRougeMetric.evaluate` (lines 147-153): the batch is a single
row; its arg-max is appended to `ext` and the counter advances (the
progress print is transient output). -/
def evaluateM (st : MRState) (score : List ℚ) : MRState :=
  {st with ext := st.ext ++ [argmax score], cur_idx := st.cur_idx + 1}

/-- The file-writing loop of `MatchRougeMetric.get_metric`
(lines 158-172), started at example index `i`: for the `k`-th recorded
arg-max `e`, resolve `data[i+k].indices[e]`, collect the referenced
source sentences in index-set order, and emit the pair of files
`(i+k).dec` (those sentences, one per line) and `(i+k).ref` (the gold
summary, one per line).  `none` models an uncaught `IndexError`. -/
def writeFilesGo (data : List Example) :
    ℕ → List ℕ → Option (List (String × List String) × List (String × List String))
  | _, [] => some ([], [])
  | i, e :: rest =>
    match data.get? i with
    | none => none
    | some ex =>
      match ex.indices.get? e with
      | none => none
      | some sent_ids =>
        match sent_ids.mapM (fun j => ex.text.get? j) with
        | none => none
        | some decLines =>
          match writeFilesGo data (i + 1) rest with
          | none => none
          | some (ds, rs) =>
            some ((toString i ++ ".dec", decLines) :: ds,
                  (toString i ++ ".ref", ex.summary) :: rs)

/-- The whole writing loop, from example index 0. -/
def writeFilesM (data : List Example) (ext : List ℕ) :
    Option (List (String × List String) × List (String × List String)) :=
  writeFilesGo data 0 ext

/-- `MatchRougeMetric.get_metric` (lines 155-183), up to the external
scorer: the written decoded/reference files are returned as the
observable artifact, and `reset=True` clears the cursor, the recorded
arg-max list, and `self.data` itself (lines 178-182). -/
def getMetricM (reset : Bool) (st : MRState) :
    Option ((List (String × List String) × List (String × List String)) × MRState) :=
  match writeFilesM st.data st.ext with
  | none => none
  | some files =>
      some (files, if reset then {st with cur_idx := 0, ext := [], data := []} else st)

/-! ## Auxiliary notions and concrete inputs used by the theorems -/

/-- Two examples with equal text and summary whose candidate index-sets
are pointwise permutations of each other. -/
def ExampleSim (a b : Example) : Prop :=
  a.text = b.text ∧ a.summary = b.summary ∧
  List.Forall₂ (fun u v : List ℕ => List.Perm u v) a.indices b.indices

/-- Pointwise `ExampleSim` over whole data collections. -/
def DataSim : List Example → List Example → Prop :=
  List.Forall₂ ExampleSim

/-- The invariant behind the all-arg-max-zero scenario: every top-k
counter equals the cursor. -/
def Balanced (st : VState) : Prop :=
  st.top1_correct = st.cur_idx ∧ st.top6_correct = st.cur_idx ∧
  st.top10_correct = st.cur_idx

/-- A trivial stand-in for the external lexical scorer. -/
def rouge0 : String → String → ℚ := fun _ _ => 0

/-- Concrete score matrix used to instantiate the loss theorems. -/
def sc2 : ℕ → ℕ → ℚ := fun _ j => if j = 0 then 2 else 0

/-- Concrete gold summary scores used to instantiate the loss theorems. -/
def ss2 : ℕ → ℚ := fun _ => 5

/-- Example whose only candidate index-set is stored unsorted. -/
def exC9 : Example := ⟨["s0", "s1"], ["g"], [[1, 0]]⟩

/-- Fresh validation state over `exC9`. -/
def stC9 : VState := initV "p" [exC9]

/-- State reached from `stC9` by one batch with one row `[3]`. -/
def stC9' : VState := ⟨"p", [⟨["s0", "s1"], ["g"], [[0, 1]]⟩], 1, 1, 1, 0, 0, 1⟩

/-- Example with a single candidate index-set `[0]`. -/
def exW : Example := ⟨["a"], ["a"], [[0]]⟩

/-- One single-row batch whose arg-max is column 0. -/
def bW : List (List (List ℚ)) := [[[3, 1]]]

/-- State reached from `initV "p" [exW]` by the batches `bW`. -/
def stW : VState := ⟨"p", [exW], 1, 1, 1, 0, 0, 1⟩

/-- Example with no candidate index-sets at all. -/
def exE : Example := ⟨["t"], ["s"], []⟩

/-- Fresh validation state over `exE`. -/
def stE : VState := initV "q" [exE]

/-- State reached from `stE` by the error-branch row `[2]`. -/
def stE' : VState := ⟨"q", [exE], 0, 0, 0, 0, 1, 1⟩

/-- Validation state with one recorded error among two observed rows. -/
def stC4 : VState := ⟨"p", [], 0, 0, 0, 0, 1, 2⟩

/-- Validation state with one observed row, arg-max in column 0. -/
def stC7 : VState := ⟨"p", [], 1, 1, 1, 0, 0, 1⟩

/-- Report produced by reducing `stC7`. -/
def rC7 : VReport := ⟨1, 1, 1, 0, 0⟩

/-- Example for the exact-evaluator theorems; its only candidate
index-set `[1, 0]` is deliberately not ascending. -/
def exM : Example := ⟨["x", "y"], ["g1", "g2"], [[1, 0]]⟩

/-- Exact-evaluator state after observing one row selecting candidate 0. -/
def stM : MRState := ⟨[exM], "d", "r", 1, 1, [0]⟩

/-- Decoded files written from `stM`. -/
def dsM : List (String × List String) := [("0.dec", ["y", "x"])]

/-- Reference files written from `stM`. -/
def rsM : List (String × List String) := [("0.ref", ["g1", "g2"])]

/-- Exact-evaluator state after reducing `stM` with reset. -/
def stM' : MRState := ⟨[], "d", "r", 1, 0, []⟩

theorem marginTerm_nonneg (m : ℚ) (b w : ℕ) (pos neg : ℕ → ℕ → ℚ) :
    0 ≤ marginTerm m b w pos neg := by
  unfold marginTerm
  apply div_nonneg
  · exact Finset.sum_nonneg fun r _ => Finset.sum_nonneg fun j _ => le_max_left 0 _
  · positivity

theorem marginTerm_self_eq_zero (b w : ℕ) (x : ℕ → ℕ → ℚ) :
    marginTerm 0 b w x x = 0 := by
  unfold marginTerm
  have h : ∀ r ∈ Finset.range b, ∑ j ∈ Finset.range w,
      max 0 (x r j - x r j + (0 : ℚ)) = 0 := by
    intro r _
    apply Finset.sum_eq_zero
    intro j _
    simp
  rw [Finset.sum_congr rfl h]
  simp

theorem marginTerm_eq_zero_iff (m : ℚ) (b w : ℕ) (hb : 0 < b) (hw : 0 < w)
    (pos neg : ℕ → ℕ → ℚ) :
    marginTerm m b w pos neg = 0 ↔
      ∀ r < b, ∀ j < w, neg r j - pos r j + m ≤ 0 := by
  unfold marginTerm
  have hden : ((b : ℚ) * w) ≠ 0 := by positivity
  rw [div_eq_zero_iff]
  constructor
  · rintro (hs | hc)
    · intro r hr j hj
      have hterm : ∀ r' ∈ Finset.range b, (0 : ℚ) ≤
          ∑ j' ∈ Finset.range w, max 0 (neg r' j' - pos r' j' + m) :=
        fun r' _ => Finset.sum_nonneg fun j' _ => le_max_left 0 _
      have hrow := (Finset.sum_eq_zero_iff_of_nonneg hterm).1 hs r
        (Finset.mem_range.2 hr)
      have hentry := (Finset.sum_eq_zero_iff_of_nonneg
        (fun j' _ => le_max_left (0 : ℚ) _)).1 hrow j (Finset.mem_range.2 hj)
      have := le_max_right (0 : ℚ) (neg r j - pos r j + m)
      rw [hentry] at this
      exact this
    · exact absurd hc hden
  · intro h
    left
    apply Finset.sum_eq_zero
    intro r hr
    apply Finset.sum_eq_zero
    intro j hj
    exact max_eq_left (h r (Finset.mem_range.1 hr) j (Finset.mem_range.1 hj))

theorem get_loss_nonneg (margin : ℚ) (b n : ℕ) (score : ℕ → ℕ → ℚ)
    (summary_score : ℕ → ℚ) : 0 ≤ get_loss margin b n score summary_score := by
  unfold get_loss
  have h1 := marginTerm_nonneg 0 b n score score
  have h2 : (0 : ℚ) ≤ ∑ i ∈ Finset.Ico 1 n,
      marginTerm (margin * i) b (n - i) score (fun r j => score r (j + i)) :=
    Finset.sum_nonneg fun i _ => marginTerm_nonneg _ _ _ _ _
  have h3 := marginTerm_nonneg 0 b n (fun r _ => summary_score r) score
  linarith

theorem get_loss_eq_zero_iff (margin : ℚ) (b n : ℕ) (hb : 0 < b) (hn : 0 < n)
    (score : ℕ → ℕ → ℚ) (summary_score : ℕ → ℚ) :
    get_loss margin b n score summary_score = 0 ↔
      OrderedScores margin b n score summary_score := by
  unfold get_loss OrderedScores
  have h2 : (0 : ℚ) ≤ ∑ i ∈ Finset.Ico 1 n,
      marginTerm (margin * i) b (n - i) score (fun r j => score r (j + i)) :=
    Finset.sum_nonneg fun i _ => marginTerm_nonneg _ _ _ _ _
  have h3 := marginTerm_nonneg 0 b n (fun r _ => summary_score r) score
  rw [marginTerm_self_eq_zero, zero_add]
  constructor
  · intro h
    have hsum : (∑ i ∈ Finset.Ico 1 n,
        marginTerm (margin * i) b (n - i) score (fun r j => score r (j + i))) = 0 ∧
        marginTerm 0 b n (fun r _ => summary_score r) score = 0 := by
      constructor <;> linarith
    obtain ⟨hcand, hgold⟩ := hsum
    constructor
    · intro r hr i hi j hj
      have hi' := Finset.mem_Ico.1 hi
      have hterm := (Finset.sum_eq_zero_iff_of_nonneg
        (fun (i' : ℕ) _ => marginTerm_nonneg (margin * (i' : ℚ)) b (n - i') score
          (fun r j => score r (j + i')))).1 hcand i hi
      have hw : 0 < n - i := Nat.sub_pos_of_lt hi'.2
      have := (marginTerm_eq_zero_iff (margin * i) b (n - i) hb hw score
        (fun r j => score r (j + i))).1 hterm r hr j hj
      linarith
    · intro r hr c hc
      have := (marginTerm_eq_zero_iff 0 b n hb hn
        (fun r _ => summary_score r) score).1 hgold r hr c hc
      linarith
  · rintro ⟨hcand, hgold⟩
    have hcz : (∑ i ∈ Finset.Ico 1 n,
        marginTerm (margin * i) b (n - i) score (fun r j => score r (j + i))) = 0 := by
      apply Finset.sum_eq_zero
      intro i hi
      have hi' := Finset.mem_Ico.1 hi
      have hw : 0 < n - i := Nat.sub_pos_of_lt hi'.2
      rw [marginTerm_eq_zero_iff (margin * i) b (n - i) hb hw]
      intro r hr j hj
      have := hcand r hr i hi j hj
      linarith
    have hgz : marginTerm 0 b n (fun r _ => summary_score r) score = 0 := by
      rw [marginTerm_eq_zero_iff 0 b n hb hn]
      intro r hr j hj
      have := hgold r hr j hj
      linarith
    rw [hcz, hgz]
    ring

theorem processRow_frame {rs : String → String → ℚ} {st : VState}
    {row : List ℚ} {st' : VState} (h : processRow rs st row = some st') :
    st'.cur_idx = st.cur_idx + 1 ∧ st'.top1_correct = st.top1_correct ∧
    st'.top6_correct = st.top6_correct ∧ st'.top10_correct = st.top10_correct := by
  unfold processRow at h
  split at h
  · exact absurd h (by simp)
  · dsimp only at h
    split at h
    · injection h with h
      subst h
      simp
    · split at h
      · exact absurd h (by simp)
      · injection h with h
        subst h
        simp

theorem foldRows_frame {rs : String → String → ℚ} :
    ∀ (rows : List (List ℚ)) (st st' : VState),
      List.foldlM (processRow rs) st rows = some st' →
      st'.cur_idx = st.cur_idx + rows.length ∧
      st'.top1_correct = st.top1_correct ∧
      st'.top6_correct = st.top6_correct ∧
      st'.top10_correct = st.top10_correct := by
  intro rows
  induction rows with
  | nil =>
    intro st st' h
    simp only [List.foldlM] at h
    injection h with h
    subst h
    simp
  | cons r rest ih =>
    intro st st' h
    rw [List.foldlM_cons] at h
    cases hp : processRow rs st r with
    | none => rw [hp] at h; exact absurd h (by simp)
    | some st1 =>
      rw [hp] at h
      have h' : List.foldlM (processRow rs) st1 rest = some st' := h
      obtain ⟨hc, h1, h6, h10⟩ := processRow_frame hp
      obtain ⟨hc', h1', h6', h10'⟩ := ih st1 st' h'
      simp only [List.length_cons]
      exact ⟨by omega, by omega, by omega, by omega⟩

theorem evaluateV_cur_topk {rs : String → String → ℚ} {st : VState}
    {score : List (List ℚ)} {st' : VState}
    (h : evaluateV rs st score = some st') :
    st'.cur_idx = st.cur_idx + score.length ∧
    st'.top1_correct = st.top1_correct + score.countP (fun row => decide (argmax row = 0)) ∧
    st'.top6_correct = st.top6_correct + score.countP (fun row => decide (argmax row ≤ 5)) ∧
    st'.top10_correct = st.top10_correct + score.countP (fun row => decide (argmax row ≤ 9)) := by
  unfold evaluateV at h
  obtain ⟨hc, h1, h6, h10⟩ := foldRows_frame score (stepTopK st score) st' h
  simp only [stepTopK] at hc h1 h6 h10
  exact ⟨hc, h1, h6, h10⟩

theorem forall₂_self {α : Type} {R : α → α → Prop} (hR : ∀ x, R x x) :
    ∀ l : List α, List.Forall₂ R l l := by
  intro l
  induction l with
  | nil => exact .nil
  | cons a l ih => exact .cons (hR a) ih

theorem forall₂_trans {α : Type} {R : α → α → Prop}
    (hR : ∀ x y z, R x y → R y z → R x z) :
    ∀ {l₁ l₂ l₃ : List α}, List.Forall₂ R l₁ l₂ → List.Forall₂ R l₂ l₃ →
      List.Forall₂ R l₁ l₃ := by
  intro l₁ l₂ l₃ h1 h2
  induction h1 generalizing l₃ with
  | nil => cases h2; exact .nil
  | cons hab _ ih =>
    cases h2 with
    | cons hbc h' => exact .cons (hR _ _ _ hab hbc) (ih h')

theorem forall₂_set_of_get {α : Type} {R : α → α → Prop} (hR : ∀ x, R x x) :
    ∀ (l : List α) (i : ℕ) (a b : α), l.get? i = some a → R b a →
      List.Forall₂ R (l.set i b) l := by
  intro l
  induction l with
  | nil => intro i a b h _; simp at h
  | cons x xs ih =>
    intro i a b h hba
    cases i with
    | zero =>
      simp only [List.get?_cons_zero, Option.some.injEq] at h
      subst h
      exact .cons hba (forall₂_self hR xs)
    | succ n =>
      simp only [List.get?_cons_succ] at h
      exact .cons (hR x) (ih n a b h hba)

theorem exampleSim_refl (a : Example) : ExampleSim a a :=
  ⟨rfl, rfl, forall₂_self (fun x => List.Perm.refl x) a.indices⟩

theorem exampleSim_trans {a b c : Example} (h1 : ExampleSim a b)
    (h2 : ExampleSim b c) : ExampleSim a c :=
  ⟨h1.1.trans h2.1, h1.2.1.trans h2.2.1,
   forall₂_trans (fun _ _ _ p q => p.trans q) h1.2.2 h2.2.2⟩

theorem dataSim_refl (l : List Example) : DataSim l l :=
  forall₂_self exampleSim_refl l

theorem dataSim_trans {l₁ l₂ l₃ : List Example} (h1 : DataSim l₁ l₂)
    (h2 : DataSim l₂ l₃) : DataSim l₁ l₃ := by
  unfold DataSim at h1 h2 ⊢
  exact forall₂_trans
    (fun x y z (p : ExampleSim x y) (q : ExampleSim y z) => exampleSim_trans p q) h1 h2

theorem processRow_dataSim {rs : String → String → ℚ} {st : VState}
    {row : List ℚ} {st' : VState} (h : processRow rs st row = some st') :
    DataSim st'.data st.data := by
  unfold processRow at h
  split at h
  · exact absurd h (by simp)
  · rename_i ex hex
    dsimp only at h
    split at h
    · injection h with h
      subst h
      exact dataSim_refl _
    · rename_i hlen
      split at h
      · exact absurd h (by simp)
      · injection h with h
        subst h
        show DataSim (st.data.set st.cur_idx _) st.data
        apply forall₂_set_of_get exampleSim_refl st.data st.cur_idx ex _ hex
        refine ⟨rfl, rfl, ?_⟩
        show List.Forall₂ _ (ex.indices.set (argmax row) _) ex.indices
        apply forall₂_set_of_get (fun x => List.Perm.refl x) ex.indices
          (argmax row) (ex.indices.get ⟨argmax row, Nat.lt_of_not_le hlen⟩) _
          (List.get?_eq_get (Nat.lt_of_not_le hlen))
        exact List.perm_insertionSort _ _

theorem foldRows_dataSim {rs : String → String → ℚ} :
    ∀ (rows : List (List ℚ)) (st st' : VState),
      List.foldlM (processRow rs) st rows = some st' →
      DataSim st'.data st.data := by
  intro rows
  induction rows with
  | nil =>
    intro st st' h
    simp only [List.foldlM] at h
    injection h with h
    subst h
    exact dataSim_refl _
  | cons r rest ih =>
    intro st st' h
    rw [List.foldlM_cons] at h
    cases hp : processRow rs st r with
    | none => rw [hp] at h; exact absurd h (by simp)
    | some st1 =>
      rw [hp] at h
      have h' : List.foldlM (processRow rs) st1 rest = some st' := h
      exact dataSim_trans (ih st1 st' h') (processRow_dataSim hp)

theorem evaluateV_dataSim {rs : String → String → ℚ} {st : VState}
    {score : List (List ℚ)} {st' : VState}
    (h : evaluateV rs st score = some st') : DataSim st'.data st.data :=
  foldRows_dataSim score (stepTopK st score) st' h

theorem evalBatches_dataSim {rs : String → String → ℚ} :
    ∀ (batches : List (List (List ℚ))) (st st' : VState),
      evalBatches rs st batches = some st' → DataSim st'.data st.data := by
  intro batches
  induction batches with
  | nil =>
    intro st st' h
    simp only [evalBatches, List.foldlM] at h
    injection h with h
    subst h
    exact dataSim_refl _
  | cons b rest ih =>
    intro st st' h
    unfold evalBatches at h
    rw [List.foldlM_cons] at h
    cases hp : evaluateV rs st b with
    | none => rw [hp] at h; exact absurd h (by simp)
    | some st1 =>
      rw [hp] at h
      have h' : List.foldlM (evaluateV rs) st1 rest = some st' := h
      exact dataSim_trans (ih st1 st' h') (evaluateV_dataSim hp)

theorem evaluateV_balanced {rs : String → String → ℚ} {st : VState}
    {score : List (List ℚ)} {st' : VState}
    (hall : ∀ row ∈ score, argmax row = 0) (hb : Balanced st)
    (h : evaluateV rs st score = some st') : Balanced st' := by
  obtain ⟨hc, h1, h6, h10⟩ := evaluateV_cur_topk h
  have c1 : score.countP (fun row => decide (argmax row = 0)) = score.length :=
    List.countP_eq_length.2 (fun a ha => by simp [hall a ha])
  have c6 : score.countP (fun row => decide (argmax row ≤ 5)) = score.length :=
    List.countP_eq_length.2 (fun a ha => by simp [hall a ha])
  have c10 : score.countP (fun row => decide (argmax row ≤ 9)) = score.length :=
    List.countP_eq_length.2 (fun a ha => by simp [hall a ha])
  obtain ⟨b1, b6, b10⟩ := hb
  exact ⟨by omega, by omega, by omega⟩

theorem evalBatches_balanced {rs : String → String → ℚ} :
    ∀ (batches : List (List (List ℚ))) (st st' : VState),
      (∀ b ∈ batches, ∀ row ∈ b, argmax row = 0) → Balanced st →
      evalBatches rs st batches = some st' → Balanced st' := by
  intro batches
  induction batches with
  | nil =>
    intro st st' _ hb h
    simp only [evalBatches, List.foldlM] at h
    injection h with h
    subst h
    exact hb
  | cons b rest ih =>
    intro st st' hall hb h
    unfold evalBatches at h
    rw [List.foldlM_cons] at h
    cases hp : evaluateV rs st b with
    | none => rw [hp] at h; exact absurd h (by simp)
    | some st1 =>
      rw [hp] at h
      have h' : List.foldlM (evaluateV rs) st1 rest = some st' := h
      exact ih st1 st' (fun b' hb' => hall b' (List.mem_cons_of_mem _ hb'))
        (evaluateV_balanced (hall b (List.mem_cons_self _ _)) hb hp) h'

theorem foldl_evaluateM_data :
    ∀ (rows : List (List ℚ)) (s : MRState),
      (List.foldl evaluateM s rows).data = s.data := by
  intro rows
  induction rows with
  | nil => intro s; rfl
  | cons r rest ih =>
    intro s
    rw [List.foldl_cons, ih]
    rfl

theorem foldl_evaluateM_ext :
    ∀ (rows : List (List ℚ)) (s : MRState),
      (List.foldl evaluateM s rows).ext = s.ext ++ rows.map argmax := by
  intro rows
  induction rows with
  | nil => intro s; simp
  | cons r rest ih =>
    intro s
    rw [List.foldl_cons, ih]
    simp [evaluateM]

theorem writeFilesGo_spec (data : List Example) :
    ∀ (ext : List ℕ) (i : ℕ) (ds rs : List (String × List String)),
      writeFilesGo data i ext = some (ds, rs) →
      ds.length = ext.length ∧ rs.length = ext.length ∧
      ∀ k e, ext.get? k = some e →
        ∃ ex sent_ids decLines,
          data.get? (i + k) = some ex ∧
          ex.indices.get? e = some sent_ids ∧
          sent_ids.mapM (fun j => ex.text.get? j) = some decLines ∧
          ds.get? k = some (toString (i + k) ++ ".dec", decLines) ∧
          rs.get? k = some (toString (i + k) ++ ".ref", ex.summary) := by
  intro ext
  induction ext with
  | nil =>
    intro i ds rs h
    unfold writeFilesGo at h
    injection h with h
    obtain ⟨h1, h2⟩ := Prod.mk.inj h
    subst h1
    subst h2
    refine ⟨rfl, rfl, ?_⟩
    intro k e hk
    simp at hk
  | cons e rest ih =>
    intro i ds rs h
    unfold writeFilesGo at h
    split at h
    · exact absurd h (by simp)
    · rename_i ex hex
      split at h
      · exact absurd h (by simp)
      · rename_i sent_ids hsid
        split at h
        · exact absurd h (by simp)
        · rename_i decLines hdec
          split at h
          · exact absurd h (by simp)
          · rename_i ds' rs' hgo
            injection h with h
            obtain ⟨h1, h2⟩ := Prod.mk.inj h
            subst h1
            subst h2
            obtain ⟨l1, l2, hspec⟩ := ih (i + 1) ds' rs' hgo
            refine ⟨by simp [l1], by simp [l2], ?_⟩
            intro k e' hk
            cases k with
            | zero =>
              simp only [List.get?_cons_zero, Option.some.injEq] at hk
              subst hk
              exact ⟨ex, sent_ids, decLines, by simpa using hex, hsid, hdec,
                by simp, by simp⟩
            | succ k' =>
              simp only [List.get?_cons_succ] at hk
              obtain ⟨ex', sid', dl', ha, hb, hc, hd, he⟩ := hspec k' e' hk
              have hidx : i + (k' + 1) = i + 1 + k' := by omega
              refine ⟨ex', sid', dl', ?_, hb, hc, ?_, ?_⟩
              · rw [hidx]; exact ha
              · rw [hidx]; simpa using hd
              · rw [hidx]; simpa using he

/-! ## Claim theorems -/

/-- C1: the claim says a missing `ROUGE_PATH` environment variable makes
module load print a "please set" message and exit with status 1.  In the
source, `os` is never imported (`from os.path import join` binds only
`join`), so evaluating `os.environ` at line 23 raises `NameError`, which
the `except KeyError` handler does not catch: module load fails with an
uncaught `NameError` for every environment, including one where
`ROUGE_PATH` is absent, and never reaches the print-and-exit path. -/
theorem c1_module_load_raises_name_error :
    loadModule (fun _ => none) = .uncaught "NameError" ∧
    ∀ env : String → Option String, loadModule env = .uncaught "NameError" := by
  constructor
  · with_unfolding_all rfl
  · intro env
    with_unfolding_all rfl

/-- C2: for every score matrix with at least one row and at least one
candidate column, `get_loss` is the sum of a seeding margin-0 term of the
score tensor against itself (equal to zero), the per-rank-distance
margin-ranking terms with margin `base_margin * i`, and a margin-0 term
of the broadcast gold summary score against every candidate score; when
`n = 1` the per-distance sum is empty and only the gold term remains. -/
theorem c2_get_loss_decomposition (margin : ℚ) (b n : ℕ) (hb : 0 < b)
    (hn : 0 < n) (score : ℕ → ℕ → ℚ) (summary_score : ℕ → ℚ) :
    marginTerm 0 b n score score = 0 ∧
    get_loss margin b n score summary_score =
      (∑ i ∈ Finset.Ico 1 n,
        marginTerm (margin * i) b (n - i) score (fun r j => score r (j + i))) +
      marginTerm 0 b n (fun r _ => summary_score r) score ∧
    (n = 1 → get_loss margin b n score summary_score =
      marginTerm 0 b n (fun r _ => summary_score r) score) := by
  refine ⟨marginTerm_self_eq_zero b n score, ?_, ?_⟩
  · unfold get_loss
    rw [marginTerm_self_eq_zero]
    ring
  · intro h1
    subst h1
    unfold get_loss
    rw [marginTerm_self_eq_zero]
    simp [Finset.Ico_self]

/-- Witness for C2 at margin 1 on a 1-row, 2-column score matrix. -/
theorem c2_get_loss_decomposition_witness :
    marginTerm 0 1 2 sc2 sc2 = 0 ∧
    get_loss 1 1 2 sc2 ss2 =
      (∑ i ∈ Finset.Ico (1 : ℕ) 2,
        marginTerm ((1 : ℚ) * (i : ℚ)) 1 (2 - i) sc2 (fun r j => sc2 r (j + i))) +
      marginTerm 0 1 2 (fun r _ => ss2 r) sc2 ∧
    ((2 : ℕ) = 1 → get_loss 1 1 2 sc2 ss2 =
      marginTerm 0 1 2 (fun r _ => ss2 r) sc2) :=
  c2_get_loss_decomposition 1 1 2 (by norm_num) (by norm_num) sc2 ss2

/-- C3: with at least one row and one candidate column, the loss is zero
exactly when every earlier-ranked candidate exceeds each candidate `i`
ranks later by at least `margin * i` and the gold summary score is at
least every candidate score; whenever any of these ordering constraints
is violated, the loss is strictly positive. -/
theorem c3_loss_zero_iff_ordered (margin : ℚ) (b n : ℕ) (hb : 0 < b)
    (hn : 0 < n) (score : ℕ → ℕ → ℚ) (summary_score : ℕ → ℚ) :
    (OrderedScores margin b n score summary_score →
      get_loss margin b n score summary_score = 0) ∧
    (¬ OrderedScores margin b n score summary_score →
      0 < get_loss margin b n score summary_score) := by
  constructor
  · intro h
    exact (get_loss_eq_zero_iff margin b n hb hn score summary_score).2 h
  · intro h
    rcases lt_or_eq_of_le (get_loss_nonneg margin b n score summary_score) with hlt | heq
    · exact hlt
    · exact absurd
        ((get_loss_eq_zero_iff margin b n hb hn score summary_score).1 heq.symm) h

/-- Witness for C3: a concrete ordered 1-row, 2-column instance has loss
zero. -/
theorem c3_loss_zero_iff_ordered_witness :
    OrderedScores 1 1 2 sc2 ss2 ∧ get_loss 1 1 2 sc2 ss2 = 0 :=
  ⟨of_decide_eq_true (by with_unfolding_all rfl),
   (c3_loss_zero_iff_ordered 1 1 2 (by norm_num) (by norm_num) sc2 ss2).1
     (of_decide_eq_true (by with_unfolding_all rfl))⟩

/-- C4 counterexample: with one recorded error among two observed rows,
the report's `Error` entry is the raw count 1, not the divided value
1/2, refuting the claim that every accumulated counter in the report,
the `Error` count included, is divided by the number of observed
rows. -/
theorem c4_error_not_divided_cex :
    ((getMetricV true stC4).map fun p => ((p.1.Error : ℚ))) ≠
      some ((stC4.Error : ℚ) / (stC4.cur_idx : ℚ)) :=
  of_decide_eq_true (by with_unfolding_all rfl)

/-- C4 amended: `get_metric` divides the three top-k counters and the
ROUGE accumulator by the cursor and returns the report with keys
`top1_accuracy`, `top6_accuracy`, `top10_accuracy`, `Error`, `ROUGE`,
where `Error` is the raw accumulated count, not divided. -/
theorem c4_get_metric_report (st : VState) (h : st.cur_idx ≠ 0) :
    (getMetricV true st).map (fun p => p.1) =
      some {top1_accuracy := (st.top1_correct : ℚ) / st.cur_idx,
            top6_accuracy := (st.top6_correct : ℚ) / st.cur_idx,
            top10_accuracy := (st.top10_correct : ℚ) / st.cur_idx,
            Error := st.Error,
            ROUGE := st.ROUGE / st.cur_idx} := by
  unfold getMetricV
  rw [if_neg h]
  rfl

/-- Witness for the amended C4 at the concrete state `stC4`. -/
theorem c4_get_metric_report_witness :
    (getMetricV true stC4).map (fun p => p.1) =
      some {top1_accuracy := (stC4.top1_correct : ℚ) / stC4.cur_idx,
            top6_accuracy := (stC4.top6_correct : ℚ) / stC4.cur_idx,
            top10_accuracy := (stC4.top10_correct : ℚ) / stC4.cur_idx,
            Error := stC4.Error,
            ROUGE := stC4.ROUGE / stC4.cur_idx} :=
  c4_get_metric_report stC4 (by decide)

/-- C5: a processed row always advances the cursor by exactly 1; a row
whose arg-max is not below the number of candidate index-sets of the
example at the cursor additionally increments `Error` by exactly 1 and
leaves the ROUGE accumulator untouched; over a whole batch the cursor
advances by the number of rows. -/
theorem c5_row_effects (rougeScores : String → String → ℚ) :
    (∀ (st : VState) (row : List ℚ) (st' : VState),
        processRow rougeScores st row = some st' →
        st'.cur_idx = st.cur_idx + 1) ∧
    (∀ (st : VState) (row : List ℚ) (st' : VState) (ex : Example),
        st.data.get? st.cur_idx = some ex →
        ex.indices.length ≤ argmax row →
        processRow rougeScores st row = some st' →
        st'.Error = st.Error + 1 ∧ st'.ROUGE = st.ROUGE) ∧
    (∀ (st : VState) (score : List (List ℚ)) (st' : VState),
        evaluateV rougeScores st score = some st' →
        st'.cur_idx = st.cur_idx + score.length) := by
  refine ⟨?_, ?_, ?_⟩
  · intro st row st' h
    exact (processRow_frame h).1
  · intro st row st' ex h1 h2 h3
    unfold processRow at h3
    rw [h1] at h3
    dsimp only at h3
    rw [dif_pos h2] at h3
    injection h3 with h3
    subst h3
    simp
  · intro st score st' h
    exact (evaluateV_cur_topk h).1

/-- Witness for C5: the error branch on a state whose current example has
no candidate index-sets. -/
theorem c5_row_effects_witness :
    stE'.cur_idx = stE.cur_idx + 1 ∧ stE'.Error = stE.Error + 1 ∧
    stE'.ROUGE = stE.ROUGE := by
  have h := c5_row_effects rouge0
  refine ⟨h.1 stE [2] stE' (by with_unfolding_all rfl), ?_⟩
  exact h.2.1 stE [2] stE' exE (by with_unfolding_all rfl)
    (of_decide_eq_true (by with_unfolding_all rfl)) (by with_unfolding_all rfl)

/-- C6: `evaluate` adds to the top-1/top-6/top-10 counters the number of
rows whose arg-max is 0, at most 5, at most 9 respectively; and after any
sequence of batches from a fresh state in which every row's arg-max is
column 0, reduction reports all three accuracies as 1. -/
theorem c6_topk_accuracy (rougeScores : String → String → ℚ) :
    (∀ (st : VState) (score : List (List ℚ)) (st' : VState),
        evaluateV rougeScores st score = some st' →
        st'.top1_correct = st.top1_correct +
          score.countP (fun row => decide (argmax row = 0)) ∧
        st'.top6_correct = st.top6_correct +
          score.countP (fun row => decide (argmax row ≤ 5)) ∧
        st'.top10_correct = st.top10_correct +
          score.countP (fun row => decide (argmax row ≤ 9))) ∧
    (∀ (sp : String) (d : List Example) (batches : List (List (List ℚ)))
        (st' : VState),
        (∀ b ∈ batches, ∀ row ∈ b, argmax row = 0) →
        evalBatches rougeScores (initV sp d) batches = some st' →
        st'.cur_idx ≠ 0 →
        (getMetricV true st').map
          (fun p => (p.1.top1_accuracy, p.1.top6_accuracy, p.1.top10_accuracy)) =
          some (1, 1, 1)) := by
  constructor
  · intro st score st' h
    exact (evaluateV_cur_topk h).2
  · intro sp d batches st' hall hev hcur
    obtain ⟨b1, b6, b10⟩ :=
      evalBatches_balanced batches (initV sp d) st' hall ⟨rfl, rfl, rfl⟩ hev
    have hq : ((st'.cur_idx : ℚ)) ≠ 0 := Nat.cast_ne_zero.2 hcur
    unfold getMetricV
    rw [if_neg hcur]
    simp [b1, b6, b10, div_self hq]

/-- Witness for C6: a single one-row batch with arg-max in column 0. -/
theorem c6_topk_accuracy_witness :
    (getMetricV true stW).map
      (fun p => (p.1.top1_accuracy, p.1.top6_accuracy, p.1.top10_accuracy)) =
      some (1, 1, 1) :=
  (c6_topk_accuracy rouge0).2 "p" [exW] bW stW
    (of_decide_eq_true (by with_unfolding_all rfl))
    (by with_unfolding_all rfl)
    (by decide)

/-- C7: reducing a fresh state raises the division error, and reducing a
state with `reset=True` zeroes every counter, the ROUGE accumulator and
the cursor, so a second reduction with no intervening `evaluate` raises
the division error. -/
theorem c7_empty_reduce :
    (∀ (reset : Bool) (sp : String) (d : List Example),
        getMetricV reset (initV sp d) = none) ∧
    (∀ (st : VState) (r : VReport) (st' : VState),
        getMetricV true st = some (r, st') →
        getMetricV true st' = none ∧ st'.top1_correct = 0 ∧
        st'.top6_correct = 0 ∧ st'.top10_correct = 0 ∧ st'.ROUGE = 0 ∧
        st'.Error = 0 ∧ st'.cur_idx = 0) := by
  constructor
  · intro reset sp d
    rfl
  · intro st r st' h
    unfold getMetricV at h
    by_cases hc : st.cur_idx = 0
    · rw [if_pos hc] at h
      exact absurd h (by simp)
    · rw [if_neg hc] at h
      injection h with h
      obtain ⟨h1, h2⟩ := Prod.mk.inj h
      subst h2
      exact ⟨rfl, rfl, rfl, rfl, rfl, rfl, rfl⟩

/-- Witness for C7: reducing the one-row state `stC7` with reset yields a
state whose second reduction fails. -/
theorem c7_empty_reduce_witness :
    getMetricV true (initV "p" []) = none ∧
    (initV "p" []).top1_correct = 0 ∧ (initV "p" []).top6_correct = 0 ∧
    (initV "p" []).top10_correct = 0 ∧ (initV "p" []).ROUGE = 0 ∧
    (initV "p" []).Error = 0 ∧ (initV "p" []).cur_idx = 0 :=
  c7_empty_reduce.2 stC7 rC7 (initV "p" []) (by with_unfolding_all rfl)

/-- C8: a successful reduction of the exact evaluator writes exactly one
decoded and one reference file per observed example, named by the
zero-based example index with suffixes `.dec` and `.ref`, the decoded
file holding the sentences of the resolved candidate index set in
index-set order and the reference file the gold summary sentences in
order, one sentence per line. -/
theorem c8_files_per_example (st : MRState) (reset : Bool)
    (decs refs : List (String × List String)) (st' : MRState)
    (h : getMetricM reset st = some ((decs, refs), st')) :
    decs.length = st.ext.length ∧ refs.length = st.ext.length ∧
    ∀ i e, st.ext.get? i = some e →
      ∃ ex sent_ids decLines,
        st.data.get? i = some ex ∧
        ex.indices.get? e = some sent_ids ∧
        sent_ids.mapM (fun j => ex.text.get? j) = some decLines ∧
        decs.get? i = some (toString i ++ ".dec", decLines) ∧
        refs.get? i = some (toString i ++ ".ref", ex.summary) := by
  unfold getMetricM at h
  split at h
  · exact absurd h (by simp)
  · rename_i files hw
    injection h with h
    obtain ⟨h1, h2⟩ := Prod.mk.inj h
    subst h1
    unfold writeFilesM at hw
    obtain ⟨l1, l2, hspec⟩ := writeFilesGo_spec st.data st.ext 0 decs refs hw
    refine ⟨l1, l2, ?_⟩
    intro i e hi
    obtain ⟨ex, sid, dl, ha, hb, hc, hd, he⟩ := hspec i e hi
    rw [Nat.zero_add] at ha hd he
    exact ⟨ex, sid, dl, ha, hb, hc, hd, he⟩

/-- Witness for C8 at the one-example state `stM`. -/
theorem c8_files_per_example_witness :
    dsM.length = stM.ext.length ∧ rsM.length = stM.ext.length := by
  have h := c8_files_per_example stM true dsM rsM stM' (by with_unfolding_all rfl)
  exact ⟨h.1, h.2.1⟩

/-- C10: reducing the exact evaluator with `reset=True` empties not only
the recorded arg-max list and the cursor but also `self.data` itself, so
any later reduction after re-observing at least one example fails (no
example can be resolved any more): the evaluator cannot be reused for a
second pass. -/
theorem c10_reset_clears_data (st : MRState)
    (files : List (String × List String) × List (String × List String))
    (st' : MRState) (h : getMetricM true st = some (files, st')) :
    st'.data = [] ∧ st'.ext = [] ∧ st'.cur_idx = 0 ∧
    ∀ rows : List (List ℚ), rows ≠ [] →
      getMetricM true (List.foldl evaluateM st' rows) = none := by
  unfold getMetricM at h
  split at h
  · exact absurd h (by simp)
  · rename_i fs hw
    injection h with h
    obtain ⟨h1, h2⟩ := Prod.mk.inj h
    have h2' : ({st with cur_idx := 0, ext := [], data := []} : MRState) = st' := h2
    subst h2'
    refine ⟨rfl, rfl, rfl, ?_⟩
    intro rows hrows
    cases rows with
    | nil => exact absurd rfl hrows
    | cons r rest =>
      have hd := foldl_evaluateM_data (r :: rest)
        {st with cur_idx := 0, ext := [], data := []}
      have hx := foldl_evaluateM_ext (r :: rest)
        {st with cur_idx := 0, ext := [], data := []}
      have hnone : writeFilesM
          (List.foldl evaluateM {st with cur_idx := 0, ext := [], data := []}
            (r :: rest)).data
          (List.foldl evaluateM {st with cur_idx := 0, ext := [], data := []}
            (r :: rest)).ext = none := by
        rw [hd, hx]
        simp [writeFilesM, writeFilesGo]
      unfold getMetricM
      rw [hnone]

/-- Witness for C10 at the one-example state `stM`. -/
theorem c10_reset_clears_data_witness :
    stM'.data = [] ∧ stM'.ext = [] ∧ stM'.cur_idx = 0 ∧
    getMetricM true (List.foldl evaluateM stM' [[2]]) = none := by
  have h := c10_reset_clears_data stM (dsM, rsM) stM' (by with_unfolding_all rfl)
  exact ⟨h.1, h.2.1, h.2.2.1, h.2.2.2 [[2]] (List.cons_ne_nil _ _)⟩

/-- C9 counterexample: one `evaluate` call on a state whose current
example stores its selected candidate index-set unsorted changes the
data collection (the in-place `ext_idx.sort()` of line 106 re-orders the
stored index-set), refuting the claim that the example collection is
left unchanged. -/
theorem c9_data_mutated_cex :
    (evaluateV rouge0 stC9 [[3]]).map (fun s => s.data) ≠ some stC9.data :=
  of_decide_eq_true (by with_unfolding_all rfl)

/-- C9 amended: across every sequence of `evaluate` calls the example
collection keeps its length, every example keeps its `text` and
`summary` exactly, and every candidate index-set is kept up to
permutation (the selected index-set may be re-ordered in place by the
ascending sort); no elements are added or removed. -/
theorem c9_data_preserved_up_to_sort (rougeScores : String → String → ℚ)
    (batches : List (List (List ℚ))) (st st' : VState)
    (h : evalBatches rougeScores st batches = some st') :
    DataSim st'.data st.data :=
  evalBatches_dataSim batches st st' h

/-- Witness for the amended C9 on the unsorted-index-set example. -/
theorem c9_data_preserved_witness : DataSim stC9'.data stC9.data :=
  c9_data_preserved_up_to_sort rouge0 [[[3]]] stC9 stC9' (by with_unfolding_all rfl)

end MatchSum
